import Mathlib

/-!
Verification of the Pokédex catalogue repository: a shallow embedding of the
ingestion script (move extraction, evolution-chain traversal, location
collection, worker retry loop, final dataset assembly) and of the query layer
(filtering, autocomplete, detail-page move display), together with theorems
settling the specified properties.
-/

namespace Pokedex

/-- Embeds `formatName` from the ingestion script: replaces every hyphen with a
space (a global regex replace of hyphen by space). -/
def formatName (s : String) : String :=
  ⟨s.data.map (fun c => if c = '-' then ' ' else c)⟩

/-- Case-sensitive substring test on character lists: some tail of `hay` has
`needle` at its front. -/
def containsSub (hay needle : List Char) : Bool :=
  hay.tails.any (fun t => needle.isPrefixOf t)

/-! ### Ingested move records (the `PokemonMove` interface) -/

/-- Embeds the `PokemonMove` interface: name, learn method, nullable level. -/
structure PokemonMove where
  name : String
  method : String
  levelLearnedAt : Option Nat
deriving DecidableEq

/-! ### Raw API move shapes consumed by `extractMoves` -/

/-- Embeds the named sub-object `move_learn_method` of a version-group detail. -/
structure ApiMethodRef where
  name : String
deriving DecidableEq

/-- Embeds one entry of `version_group_details`, with its optional learn method
and optional learn level. -/
structure ApiDetail where
  move_learn_method : Option ApiMethodRef
  level_learned_at : Option Nat
deriving DecidableEq

/-- Embeds the named `move` sub-object of a raw move entry. -/
structure ApiMoveRef where
  name : String
deriving DecidableEq

/-- Embeds one raw move entry of the API payload. Both sub-fields are optional,
matching the optional chaining in the script. -/
structure ApiMove where
  move : Option ApiMoveRef
  version_group_details : Option (List ApiDetail)
deriving DecidableEq

/-- Embeds the predicate of the `find` call in `extractMoves`:
`detail.move_learn_method?.name === 'level-up'`. -/
def isLevelUpDetail (d : ApiDetail) : Bool :=
  match d.move_learn_method with
  | some r => r.name == "level-up"
  | none => false

/-- Embeds `detail?.move_learn_method?.name` as an optional string. -/
def methodName (d : ApiDetail) : Option String :=
  d.move_learn_method.map (fun r => r.name)

/-- Embeds the per-move mapping step of `extractMoves`: resolve the level-up
detail, the display name, the method (with the two fallbacks), and the
nullable level. -/
def mapApiMove (m : ApiMove) : PokemonMove :=
  let vgd := m.version_group_details.getD []
  let details := vgd.find? isLevelUpDetail
  { name := (m.move.map (fun r => r.name)).getD ""
    method := ((details.bind methodName).orElse
        (fun _ => vgd.head?.bind methodName)).getD "unknown"
    levelLearnedAt := details.bind (fun d => d.level_learned_at) }

/-- Embeds the `levelUpMoves` binding of `extractMoves`: map every raw move and
keep those with a non-empty name (JS truthiness of `move.name`). -/
def levelUpMoves (moves : List ApiMove) : List PokemonMove :=
  (moves.map mapApiMove).filter (fun m => m.name != "")

/-- Level comparison used by the ascending sort of level-up moves, embedding the
comparator `(a.levelLearnedAt ?? 0) - (b.levelLearnedAt ?? 0)`. -/
def moveLevelLe (a b : PokemonMove) : Prop :=
  a.levelLearnedAt.getD 0 ≤ b.levelLearnedAt.getD 0

instance : DecidableRel moveLevelLe :=
  fun a b => inferInstanceAs (Decidable (a.levelLearnedAt.getD 0 ≤ b.levelLearnedAt.getD 0))

instance : IsTotal PokemonMove moveLevelLe :=
  ⟨fun a b => Nat.le_total (a.levelLearnedAt.getD 0) (b.levelLearnedAt.getD 0)⟩

instance : IsTrans PokemonMove moveLevelLe :=
  ⟨fun _ _ _ h h₂ => Nat.le_trans h h₂⟩

/-- Embeds the `sortedLevelUp` binding: the level-up moves with a non-null
level, stably sorted ascending by level (JS `Array.prototype.sort` is stable,
modelled by insertion sort). -/
def sortedLevelUp (moves : List ApiMove) : List PokemonMove :=
  ((levelUpMoves moves).filter (fun m => m.levelLearnedAt.isSome)).insertionSort moveLevelLe

/-- Embeds the `otherMoves` binding: moves with a null level, in
first-encountered order, capped at 20. -/
def otherMoves (moves : List ApiMove) : List PokemonMove :=
  ((levelUpMoves moves).filter (fun m => m.levelLearnedAt.isNone)).take 20

/-- Embeds `extractMoves`: the `Array.isArray` guard becomes an `Option`, and
the result is the first 30 sorted level-up moves followed by the capped other
moves. -/
def extractMoves (moves : Option (List ApiMove)) : List PokemonMove :=
  match moves with
  | none => []
  | some ms => (sortedLevelUp ms).take 30 ++ otherMoves ms

/-! ### Evolution-chain traversal -/

/-- Embeds the `species` sub-object of an evolution node: name and URL. -/
structure SpeciesRef where
  name : String
  url : String
deriving DecidableEq

/-- Embeds the tree of evolution nodes: an optional species reference and the
`evolves_to` children. -/
inductive EvoTree where
  | node (species : Option SpeciesRef) (evolves_to : List EvoTree)

/-- Embeds the flattened node record of the `PokemonEvolutionNode` interface. -/
structure PokemonEvolutionNode where
  id : Option Nat
  name : String
  stage : Nat
deriving DecidableEq

/-- Embeds the numeric conversion of the regex capture group (a digit string
read as a decimal number). -/
def digitsToNat (ds : List Char) : Nat :=
  ds.foldl (fun n c => 10 * n + (c.toNat - 48)) 0

/-- Embeds the regex match extracting a trailing numeric path segment from a
species URL: the string must end in a slash, then digits, then at most one
further trailing slash; the digits are the captured id. -/
def matchTrailingId (s : String) : Option Nat :=
  let cs := if s.data.getLast? = some '/' then s.data.dropLast else s.data
  let rev := cs.reverse
  let digits := rev.takeWhile Char.isDigit
  if digits.isEmpty then none
  else if (rev.dropWhile Char.isDigit).head? = some '/' then some (digitsToNat digits.reverse)
  else none

/-- Embeds the record pushed for one visited node: id from the URL match when a
species reference exists, name defaulted to the empty string, and the stage. -/
def evoNodeEntry (species : Option SpeciesRef) (stage : Nat) : PokemonEvolutionNode :=
  { id := (species.map (fun r => r.url)).bind matchTrailingId
    name := (species.map (fun r => r.name)).getD ""
    stage := stage }

mutual

/-- Embeds the recursive `traverse` of `fetchEvolutionChain`: push the current
node, then visit every child at the next stage. -/
def traverse : EvoTree → Nat → List PokemonEvolutionNode
  | EvoTree.node species evolves, stage =>
      evoNodeEntry species stage :: traverseList evolves (stage + 1)

/-- Embeds the loop of `traverse` over the `evolves_to` children. -/
def traverseList : List EvoTree → Nat → List PokemonEvolutionNode
  | [], _ => []
  | t :: ts, stage => traverse t stage ++ traverseList ts stage

end

mutual

/-- Specification-side description: the depth of every node of the tree, in
depth-first preorder, root depth zero. -/
def preorderDepths : EvoTree → List Nat
  | EvoTree.node _ evolves => 0 :: (preorderDepthsList evolves).map (· + 1)

/-- Specification-side description: preorder depths of a forest, relative to
the parent of its roots. -/
def preorderDepthsList : List EvoTree → List Nat
  | [] => []
  | t :: ts => preorderDepths t ++ preorderDepthsList ts

end

mutual

/-- Number of nodes of an evolution tree. -/
def treeSize : EvoTree → Nat
  | EvoTree.node _ evolves => 1 + forestSize evolves

/-- Number of nodes of a forest of evolution trees. -/
def forestSize : List EvoTree → Nat
  | [] => 0
  | t :: ts => treeSize t + forestSize ts

end

/-- Embeds the payload of the evolution-chain endpoint: an optional root node. -/
structure ChainData where
  chain : Option EvoTree

/-- Embeds the call `traverse(data.chain)` together with the null guard at the
top of `traverse`. -/
def rootChain : Option EvoTree → List PokemonEvolutionNode
  | none => []
  | some t => traverse t 0

/-- Embeds `fetchEvolutionChain` as a function of the fetch effect: a null,
undefined or empty URL short-circuits to the empty list; otherwise the payload
is fetched and its chain traversed. -/
def fetchEvolutionChain (fetchJson : String → Except String ChainData)
    (url : Option String) : Except String (List PokemonEvolutionNode) :=
  if url.getD "" = "" then Except.ok []
  else (fetchJson (url.getD "")).map (fun data => rootChain data.chain)

/-! ### Location collection -/

/-- Embeds the `location_area` sub-object of an encounter entry. -/
structure LocationAreaRef where
  name : String
deriving DecidableEq

/-- Embeds one entry of the location-encounters payload. -/
structure EncounterEntry where
  location_area : Option LocationAreaRef
deriving DecidableEq

/-- Embeds one iteration body of the `fetchLocations` loop: when the entry has
a non-empty area name, add its humanized form to the insertion-ordered set. -/
def insertLocation (acc : List String) (e : EncounterEntry) : List String :=
  match e.location_area with
  | some la =>
      if la.name = "" then acc
      else if formatName la.name ∈ acc then acc
      else acc ++ [formatName la.name]
  | none => acc

/-- Embeds the `fetchLocations` loop: process entries in order, and break as
soon as the set holds 12 names. -/
def fetchLocationsLoop : List EncounterEntry → List String → List String
  | [], acc => acc
  | e :: rest, acc =>
    if 12 ≤ (insertLocation acc e).length then insertLocation acc e
    else fetchLocationsLoop rest (insertLocation acc e)

/-- Embeds the pure part of `fetchLocations` applied to a fetched payload. -/
def collectLocations (entries : List EncounterEntry) : List String :=
  fetchLocationsLoop entries []

/-- Embeds `fetchLocations` as a function of the fetch effect: a null,
undefined or empty URL short-circuits to the empty list; otherwise the
encounter entries are fetched and folded into the location list. -/
def fetchLocations (fetchJson : String → Except String (List EncounterEntry))
    (url : Option String) : Except String (List String) :=
  if url.getD "" = "" then Except.ok []
  else (fetchJson (url.getD "")).map collectLocations

/-- Specification-side description: the humanized non-empty area names of the
encounter entries, in encounter order. -/
def humanizedAreaNames (entries : List EncounterEntry) : List String :=
  entries.filterMap (fun e => e.location_area.bind
    (fun la => if la.name = "" then none else some (formatName la.name)))

/-- Specification-side description: drop every name already seen, keeping the
first occurrence of each remaining name in order. -/
def dedupNew (seen : List String) : List String → List String
  | [] => []
  | x :: xs => if x ∈ seen then dedupNew seen xs else x :: dedupNew (seen ++ [x]) xs

/-! ### The record collection data model -/

/-- Embeds the `PokemonAbility` interface. -/
structure PokemonAbility where
  name : String
  hidden : Bool
deriving DecidableEq

/-- Embeds the `PokemonStat` interface. -/
structure PokemonStat where
  name : String
  value : Nat
deriving DecidableEq

/-- Embeds the `PokemonSpriteVariants` interface. -/
structure PokemonSpriteVariants where
  default : Option String
  shiny : Option String
deriving DecidableEq

/-- Embeds the `PokemonEntry` interface: one full creature record. -/
structure PokemonEntry where
  id : Nat
  name : String
  height : Nat
  weight : Nat
  baseExperience : Nat
  types : List String
  abilities : List PokemonAbility
  stats : List PokemonStat
  moves : List PokemonMove
  image : Option String
  spriteVariants : PokemonSpriteVariants
  generation : Option String
  habitat : Option String
  isLegendary : Bool
  isMythical : Bool
  flavorText : String
  evolutionChain : List PokemonEvolutionNode
  locations : List String
deriving DecidableEq

/-- Embeds the `LegendaryFilter` union type. -/
inductive LegendaryFilter where
  | all
  | legendary
  | mythical
  | nonLegendary
deriving DecidableEq

/-- Embeds the `SortOption` union type. -/
inductive SortOption where
  | nameAsc
  | idAsc
  | idDesc
  | statTotalDesc
deriving DecidableEq

/-- Embeds the `FilterState` interface; the generation selector is a string
with the sentinel value "all". -/
structure FilterState where
  searchTerm : String
  selectedTypes : List String
  generation : String
  legendary : LegendaryFilter
  sortBy : SortOption
deriving DecidableEq

/-! ### String normalisation helpers used by the query layer -/

/-- Lowercasing modelled character by character (the JS `toLowerCase` on the
ASCII names of the dataset). -/
def toLowerStr (s : String) : String :=
  ⟨s.data.map Char.toLower⟩

/-- Whitespace trimming at both ends, modelled on the character list (the JS
`trim`). -/
def trimStr (s : String) : String :=
  ⟨((s.data.dropWhile Char.isWhitespace).reverse.dropWhile Char.isWhitespace).reverse⟩

/-- Case-insensitive substring test against a pre-normalised needle. -/
def containsIgnoreCase (hay needle : String) : Bool :=
  containsSub (toLowerStr hay).data needle.data

/-- Lexicographic comparison of character lists by code point, modelling the
string comparators of the query layer. -/
def charListLe : List Char → List Char → Bool
  | [], _ => true
  | _ :: _, [] => false
  | a :: as, b :: bs =>
    if a.toNat = b.toNat then charListLe as bs else decide (a.toNat < b.toNat)

/-! ### Query engine (modelled) -/

/-- Modelled from the spec: the module `@/lib/filtering` imported by the
explorer is not among the provided source files, so the search clause follows
§4.1 — the trimmed lowercase term is empty, or is a substring of the display
name, or equals or is a substring of a type name or an ability name. -/
def matchesSearch (term : String) (p : PokemonEntry) : Bool :=
  let t := toLowerStr (trimStr term)
  t == "" || containsIgnoreCase p.name t
    || p.types.any (fun ty => toLowerStr ty == t || containsIgnoreCase ty t)
    || p.abilities.any (fun a => toLowerStr a.name == t || containsIgnoreCase a.name t)

/-- Modelled from the spec: `@/lib/filtering` is missing from the snapshot;
§4.1 requires a record to contain ALL selected types (conjunctive). -/
def matchesTypes (selected : List String) (p : PokemonEntry) : Bool :=
  selected.all (fun ty => p.types.contains ty)

/-- Modelled from the spec: `@/lib/filtering` is missing from the snapshot;
§4.1 requires an exact generation tag match unless the selector is "all". -/
def matchesGeneration (generation : String) (p : PokemonEntry) : Bool :=
  generation == "all" || p.generation == some generation

/-- Modelled from the spec: `@/lib/filtering` is missing from the snapshot;
§4.1 maps the legendary selector to the two boolean flags. -/
def matchesLegendary : LegendaryFilter → PokemonEntry → Bool
  | LegendaryFilter.all, _ => true
  | LegendaryFilter.legendary, p => p.isLegendary
  | LegendaryFilter.mythical, p => p.isMythical
  | LegendaryFilter.nonLegendary, p => !p.isLegendary && !p.isMythical

/-- Modelled from the spec: `getBaseStatTotal` of `@/lib/pokemonData` is
missing from the snapshot; §4.1 defines the total as the sum of every entry of
the stat list. -/
def getBaseStatTotal (stats : List PokemonStat) : Nat :=
  (stats.map (fun s => s.value)).sum

/-- Modelled from the spec: the lowercase display name, the key of the
locale-aware case-insensitive name ordering (lexicographic by code point on
the lowercase ASCII names of the dataset). -/
def nameKey (p : PokemonEntry) : List Char :=
  (toLowerStr p.name).data

/-- Modelled from the spec: the sort orderings of §4.1, each with ties broken
by ascending identifier. -/
def sortRel : SortOption → PokemonEntry → PokemonEntry → Prop
  | SortOption.idAsc, a, b => a.id ≤ b.id
  | SortOption.idDesc, a, b => b.id ≤ a.id
  | SortOption.nameAsc, a, b =>
      (charListLe (nameKey a) (nameKey b) = true ∧ nameKey a ≠ nameKey b)
      ∨ (nameKey a = nameKey b ∧ a.id ≤ b.id)
  | SortOption.statTotalDesc, a, b =>
      getBaseStatTotal b.stats < getBaseStatTotal a.stats
      ∨ (getBaseStatTotal a.stats = getBaseStatTotal b.stats ∧ a.id ≤ b.id)

instance : (o : SortOption) → DecidableRel (sortRel o)
  | SortOption.idAsc => fun a b => inferInstanceAs (Decidable (a.id ≤ b.id))
  | SortOption.idDesc => fun a b => inferInstanceAs (Decidable (b.id ≤ a.id))
  | SortOption.nameAsc => fun a b => inferInstanceAs
      (Decidable ((charListLe (nameKey a) (nameKey b) = true ∧ nameKey a ≠ nameKey b)
        ∨ (nameKey a = nameKey b ∧ a.id ≤ b.id)))
  | SortOption.statTotalDesc => fun a b => inferInstanceAs
      (Decidable (getBaseStatTotal b.stats < getBaseStatTotal a.stats
        ∨ (getBaseStatTotal a.stats = getBaseStatTotal b.stats ∧ a.id ≤ b.id)))

/-- Modelled from the spec: `filterAndSortPokemon` of the missing
`@/lib/filtering` — the four AND-combined clauses of §4.1 followed by a stable
sort for the selected option. -/
def filterAndSortPokemon (pokemon : List PokemonEntry) (filters : FilterState) :
    List PokemonEntry :=
  (pokemon.filter (fun p =>
      matchesSearch filters.searchTerm p && matchesTypes filters.selectedTypes p
        && matchesGeneration filters.generation p
        && matchesLegendary filters.legendary p)).insertionSort
    (sortRel filters.sortBy)

/-- Modelled from the spec: `getAutocompleteSuggestions` of the missing
`@/lib/filtering` — an empty normalised query yields no suggestions, otherwise
the records whose display name contains the query, in collection order,
truncated at the maximum. -/
def getAutocompleteSuggestions (pokemon : List PokemonEntry) (query : String)
    (maxResults : Nat) : List PokemonEntry :=
  if toLowerStr (trimStr query) = "" then []
  else (pokemon.filter
      (fun p => containsIgnoreCase p.name (toLowerStr (trimStr query)))).take maxResults

/-! ### Ingestion pipeline -/

/-- Embeds one element of the fetched index list: name and detail URL. -/
structure IngestEntry where
  name : String
  url : String
deriving DecidableEq

/-- Embeds the effect environment of one ingestion run: the outcome of the
index fetch, and the outcome of the full per-item detail fetch for item `i`
on attempt `a` (`0` the first try, `1` the retry). -/
structure IngestOracle where
  indexFetch : Except String (List IngestEntry)
  itemFetch : Nat → Nat → Except String PokemonEntry

/-- Embeds the worker body for one claimed index: try the detail fetch, on
failure pause and retry exactly once, on a second failure record a null
placeholder. -/
def processItem (o : IngestOracle) (i : Nat) : Option PokemonEntry :=
  match o.itemFetch i 0 with
  | Except.ok p => some p
  | Except.error _ =>
    match o.itemFetch i 1 with
    | Except.ok p => some p
    | Except.error _ => none

/-- Embeds the cooperative worker pool: the shared cursor hands every index in
range to exactly one worker, so the results array holds `processItem` at every
index. -/
def runWorkers (o : IngestOracle) (total : Nat) : List (Option PokemonEntry) :=
  (List.range total).map (processItem o)

/-- Identifier ordering of the final sort. -/
def entryIdLe (a b : PokemonEntry) : Prop := a.id ≤ b.id

instance : DecidableRel entryIdLe :=
  fun a b => inferInstanceAs (Decidable (a.id ≤ b.id))

instance : IsTotal PokemonEntry entryIdLe :=
  ⟨fun a b => Nat.le_total a.id b.id⟩

instance : IsTrans PokemonEntry entryIdLe :=
  ⟨fun _ _ _ h h₂ => Nat.le_trans h h₂⟩

/-- Embeds the final assembly of `main`: drop the null placeholders, then sort
ascending by identifier (a stable sort, modelled by insertion sort). -/
def buildDataset (results : List (Option PokemonEntry)) : List PokemonEntry :=
  (results.filterMap id).insertionSort entryIdLe

/-- Embeds `main` as a function of the oracle: a failing index fetch
propagates; otherwise every entry is processed and the dataset assembled. -/
def runIngestion (o : IngestOracle) : Except String (List PokemonEntry) :=
  match o.indexFetch with
  | Except.error e => Except.error e
  | Except.ok entries => Except.ok (buildDataset (runWorkers o entries.length))

/-- Embeds the process wrapper around `main`: the catch handler exits with a
non-zero code and nothing written; success exits zero with the dataset
written. -/
def runProcess (o : IngestOracle) : Nat × Option (List PokemonEntry) :=
  match runIngestion o with
  | Except.ok ds => (0, some ds)
  | Except.error _ => (1, none)

/-! ### Detail-page move display -/

/-- Embeds the `MOVES_DISPLAY_LIMIT` constant of the detail page. -/
def MOVES_DISPLAY_LIMIT : Nat := 16

/-- Embeds the `localeCompare` name comparator of the detail page, modelled as
lexicographic order by code point on the lowercase ASCII move names of the
dataset. -/
def moveNameLe (a b : PokemonMove) : Prop :=
  charListLe a.name.data b.name.data = true

instance : DecidableRel moveNameLe :=
  fun a b => inferInstanceAs (Decidable (charListLe a.name.data b.name.data = true))

/-- Embeds the move-list derivation of the detail page: re-sort the non-null
moves ascending by level, re-sort the null-level moves by name, concatenate,
truncate to the display limit. -/
def combinedMoves (moves : List PokemonMove) : List PokemonMove :=
  ((moves.filter (fun m => m.levelLearnedAt.isSome)).insertionSort moveLevelLe
      ++ (moves.filter (fun m => m.levelLearnedAt.isNone)).insertionSort moveNameLe).take
    MOVES_DISPLAY_LIMIT

/-! ### Concrete fixtures -/

/-- A concrete full record used by the witnesses. -/
def samplePokemon : PokemonEntry :=
  { id := 1
    name := "bulbasaur"
    height := 7
    weight := 69
    baseExperience := 64
    types := ["grass", "poison"]
    abilities := [{ name := "overgrow", hidden := false }]
    stats := [{ name := "hp", value := 45 }]
    moves := []
    image := none
    spriteVariants := { default := none, shiny := none }
    generation := some "generation-i"
    habitat := some "grassland"
    isLegendary := false
    isMythical := false
    flavorText := ""
    evolutionChain := []
    locations := [] }

/-- A record derived from the sample by overriding id and name. -/
def acEntry (i : Nat) (n : String) : PokemonEntry :=
  { samplePokemon with id := i, name := n }

/-- Five records with pi-led names in ascending-id order. -/
def acFixture : List PokemonEntry :=
  [acEntry 1 "pichu", acEntry 2 "pikachu", acEntry 3 "pidgey",
   acEntry 4 "pidgeotto", acEntry 5 "piplup"]

/-- A filter state selecting one type. -/
def sampleFilters : FilterState :=
  { searchTerm := ""
    selectedTypes := ["grass"]
    generation := "all"
    legendary := LegendaryFilter.all
    sortBy := SortOption.idAsc }

/-- An encounter entry with the given area name. -/
def locEntry (n : String) : EncounterEntry :=
  { location_area := some { name := n } }

/-- Twelve encounter entries with pairwise-distinct area names. -/
def locFixture : List EncounterEntry :=
  [locEntry "a1", locEntry "a2", locEntry "a3", locEntry "a4", locEntry "a5",
   locEntry "a6", locEntry "a7", locEntry "a8", locEntry "a9", locEntry "a10",
   locEntry "a11", locEntry "a12"]

/-- An oracle whose single item fails on the first attempt and succeeds on the
retry. -/
def retryOracle : IngestOracle :=
  { indexFetch := Except.ok [{ name := "bulbasaur", url := "u1" }]
    itemFetch := fun _ a => if a = 0 then Except.error "boom" else Except.ok samplePokemon }

/-- An oracle whose single item fails on both attempts. -/
def failTwiceOracle : IngestOracle :=
  { indexFetch := Except.ok [{ name := "bulbasaur", url := "u1" }]
    itemFetch := fun _ _ => Except.error "boom" }

/-- An oracle whose index fetch fails. -/
def failIndexOracle : IngestOracle :=
  { indexFetch := Except.error "down"
    itemFetch := fun _ _ => Except.error "down" }

/-- Two raw moves without a level-up detail, named so that alphabetical order
reverses encounter order. -/
def cexRawMoves : List ApiMove :=
  [{ move := some { name := "b" }, version_group_details := some [] },
   { move := some { name := "a" }, version_group_details := some [] }]

/-- The ingested move list of the counterexample record. -/
def cexIngested : List PokemonMove :=
  extractMoves (some cexRawMoves)

/-! ## Theorems -/

/-- Claim C2: for every input move array, `extractMoves` returns the moves with
a non-null learn level, sorted ascending by that level and capped at 30,
followed by the moves with a null level in first-encountered order capped at
20; hence at most 50 entries. -/
theorem extractMoves_spec (moves : Option (List ApiMove)) :
    extractMoves moves
        = (((levelUpMoves (moves.getD [])).filter
              (fun m => m.levelLearnedAt.isSome)).insertionSort moveLevelLe).take 30
          ++ ((levelUpMoves (moves.getD [])).filter
              (fun m => m.levelLearnedAt.isNone)).take 20
    ∧ List.Sorted moveLevelLe ((sortedLevelUp (moves.getD [])).take 30)
    ∧ List.Perm (sortedLevelUp (moves.getD []))
        ((levelUpMoves (moves.getD [])).filter (fun m => m.levelLearnedAt.isSome))
    ∧ (extractMoves moves).length ≤ 50 := by
  have hsorted : List.Sorted moveLevelLe ((sortedLevelUp (moves.getD [])).take 30) :=
    List.Pairwise.sublist (List.take_sublist 30 _)
      (List.sorted_insertionSort moveLevelLe _)
  have hperm := List.perm_insertionSort moveLevelLe
    ((levelUpMoves (moves.getD [])).filter (fun m => m.levelLearnedAt.isSome))
  refine ⟨?_, hsorted, hperm, ?_⟩
  · cases moves with
    | none => simp [extractMoves, levelUpMoves, sortedLevelUp, otherMoves]
    | some ms => rfl
  · cases moves with
    | none => simp [extractMoves]
    | some ms =>
      have h₁ := List.length_take_le 30 (sortedLevelUp ms)
      have h₂ := List.length_take_le 20
        ((levelUpMoves ms).filter (fun m => m.levelLearnedAt.isNone))
      simp only [extractMoves, otherMoves, List.length_append]
      omega

mutual

/-- The stages recorded by `traverse` from base stage `d` are the preorder
depths shifted by `d`. -/
theorem traverse_map_stage : ∀ (t : EvoTree) (d : Nat),
    (traverse t d).map (fun n => n.stage) = (preorderDepths t).map (fun x => x + d)
  | EvoTree.node s cs, d => by
    simp only [traverse, preorderDepths, List.map_cons, List.map_map,
      traverseList_map_stage cs (d + 1), evoNodeEntry]
    congr 1
    · omega
    · exact List.map_congr_left (fun x _ => by
        simp only [Function.comp_apply]
        omega)

/-- Forest version of `traverse_map_stage`. -/
theorem traverseList_map_stage : ∀ (ts : List EvoTree) (d : Nat),
    (traverseList ts d).map (fun n => n.stage)
      = (preorderDepthsList ts).map (fun x => x + d)
  | [], _ => rfl
  | t :: ts, d => by
    simp only [traverseList, preorderDepthsList, List.map_append,
      traverse_map_stage t d, traverseList_map_stage ts d]

end

mutual

/-- No node is dropped: the flattening has exactly one record per tree node. -/
theorem traverse_length : ∀ (t : EvoTree) (d : Nat),
    (traverse t d).length = treeSize t
  | EvoTree.node s cs, d => by
    simp only [traverse, treeSize, List.length_cons, traverseList_length cs (d + 1)]
    omega

/-- Forest version of `traverse_length`. -/
theorem traverseList_length : ∀ (ts : List EvoTree) (d : Nat),
    (traverseList ts d).length = forestSize ts
  | [], _ => rfl
  | t :: ts, d => by
    simp only [traverseList, forestSize, List.length_append,
      traverse_length t d, traverseList_length ts d]

end

/-- Claim C3: the flattening produced by the traversal of
`fetchEvolutionChain` is the depth-first preorder of the tree, with each stage
equal to the recursion depth; a branching root yields stages `[0, 1, 1]` in
traversal order; and a node without a species reference is kept, with null id
and empty name. -/
theorem traverse_preorder (t : EvoTree) :
    (traverse t 0).map (fun n => n.stage) = preorderDepths t
    ∧ (traverse t 0).length = treeSize t
    ∧ (∀ species cs stage, traverse (EvoTree.node species cs) stage
        = evoNodeEntry species stage :: traverseList cs (stage + 1))
    ∧ (∀ cs stage, (traverse (EvoTree.node none cs) stage).head?
        = some { id := none, name := "", stage := stage })
    ∧ (∀ s₀ s₁ s₂, (traverse
        (EvoTree.node s₀ [EvoTree.node s₁ [], EvoTree.node s₂ []]) 0).map
          (fun n => n.stage) = [0, 1, 1]) := by
  refine ⟨?_, traverse_length t 0, fun _ _ _ => rfl, fun cs stage => ?_, fun s₀ s₁ s₂ => ?_⟩
  · simpa using traverse_map_stage t 0
  · simp [traverse, evoNodeEntry]
  · simp [traverse, traverseList, evoNodeEntry]

/-- Claim C10: a null, undefined or empty sub-resource URL makes
`fetchEvolutionChain` and `fetchLocations` return the empty list without
invoking the fetch effect and without raising an error. -/
theorem emptyUrl_shortCircuits (fetchChain : String → Except String ChainData)
    (fetchEnc : String → Except String (List EncounterEntry)) :
    fetchEvolutionChain fetchChain none = Except.ok []
    ∧ fetchEvolutionChain fetchChain (some "") = Except.ok []
    ∧ fetchLocations fetchEnc none = Except.ok []
    ∧ fetchLocations fetchEnc (some "") = Except.ok [] :=
  ⟨rfl, rfl, rfl, rfl⟩

/-- Claim C7: the dataset assembled after the workers finish is exactly the
non-null results, sorted ascending by identifier. -/
theorem buildDataset_spec (results : List (Option PokemonEntry)) :
    List.Perm (buildDataset results) (results.filterMap id)
    ∧ List.Sorted entryIdLe (buildDataset results) :=
  ⟨List.perm_insertionSort entryIdLe _, List.sorted_insertionSort entryIdLe _⟩

/-- Claim C8: a failing index fetch terminates the run with a non-zero exit
code and no dataset written. -/
theorem indexFailure_fatal (o : IngestOracle) (e : String)
    (h : o.indexFetch = Except.error e) :
    (runProcess o).1 ≠ 0 ∧ (runProcess o).2 = none := by
  unfold runProcess runIngestion
  rw [h]
  exact ⟨Nat.one_ne_zero, rfl⟩

/-- Witness for `indexFailure_fatal` at a concrete failing oracle. -/
theorem indexFailure_fatal_witness :
    (runProcess failIndexOracle).1 ≠ 0 ∧ (runProcess failIndexOracle).2 = none :=
  indexFailure_fatal failIndexOracle "down" rfl

/-- Claim C4: when the first detail fetch of an item fails, the worker retries
exactly once; a successful retry records the item and it appears in the final
output, while a second failure records a null placeholder at that index and
the run still completes. -/
theorem worker_retry_spec (o : IngestOracle) (entries : List IngestEntry) (i : Nat)
    (p : PokemonEntry) (e₁ e₂ : String)
    (hidx : o.indexFetch = Except.ok entries) (hi : i < entries.length)
    (hfail : o.itemFetch i 0 = Except.error e₁) :
    (o.itemFetch i 1 = Except.ok p →
      (runWorkers o entries.length)[i]? = some (some p)
      ∧ p ∈ buildDataset (runWorkers o entries.length)
      ∧ runIngestion o = Except.ok (buildDataset (runWorkers o entries.length)))
    ∧ (o.itemFetch i 1 = Except.error e₂ →
      (runWorkers o entries.length)[i]? = some none
      ∧ (runWorkers o entries.length).length = entries.length
      ∧ runIngestion o = Except.ok (buildDataset (runWorkers o entries.length))) := by
  have hok : runIngestion o = Except.ok (buildDataset (runWorkers o entries.length)) := by
    unfold runIngestion
    rw [hidx]
  have hget : (runWorkers o entries.length)[i]? = some (processItem o i) := by
    rw [runWorkers, List.getElem?_map, List.getElem?_range hi]
    rfl
  constructor
  · intro hretry
    have hpi : processItem o i = some p := by
      simp [processItem, hfail, hretry]
    refine ⟨by rw [hget, hpi], ?_, hok⟩
    have hmem : some p ∈ runWorkers o entries.length :=
      List.getElem?_mem (by rw [hget, hpi])
    have hmem₂ : p ∈ (runWorkers o entries.length).filterMap id :=
      List.mem_filterMap.mpr ⟨some p, hmem, rfl⟩
    simpa [buildDataset] using hmem₂
  · intro hretry
    have hpi : processItem o i = none := by
      simp [processItem, hfail, hretry]
    exact ⟨by rw [hget, hpi], by simp [runWorkers], hok⟩

/-- Witness for `worker_retry_spec`: the retried item is present in the final
dataset; after two consecutive failures the slot holds the null placeholder. -/
theorem worker_retry_spec_witness :
    samplePokemon ∈ buildDataset (runWorkers retryOracle 1)
    ∧ (runWorkers failTwiceOracle 1)[0]? = some none :=
  ⟨((worker_retry_spec retryOracle [{ name := "bulbasaur", url := "u1" }] 0
      samplePokemon "boom" "x" rfl (by decide) rfl).1 rfl).2.1,
   ((worker_retry_spec failTwiceOracle [{ name := "bulbasaur", url := "u1" }] 0
      samplePokemon "boom" "boom" rfl (by decide) rfl).2 rfl).1⟩

/-- One insertion step grows the location set by at most one name. -/
theorem insertLocation_length_le (acc : List String) (e : EncounterEntry) :
    (insertLocation acc e).length ≤ acc.length + 1 := by
  cases h : e.location_area with
  | none => simp [insertLocation, h]
  | some la =>
    simp only [insertLocation, h]
    split
    · omega
    · split
      · omega
      · simp

/-- One insertion step preserves distinctness of the collected names. -/
theorem insertLocation_nodup {acc : List String} (e : EncounterEntry)
    (h : acc.Nodup) : (insertLocation acc e).Nodup := by
  cases hl : e.location_area with
  | none => simpa [insertLocation, hl] using h
  | some la =>
    simp only [insertLocation, hl]
    by_cases h₁ : la.name = ""
    · rwa [if_pos h₁]
    · rw [if_neg h₁]
      by_cases h₂ : formatName la.name ∈ acc
      · rwa [if_pos h₂]
      · rw [if_neg h₂]
        simpa [List.nodup_append, h] using h₂

/-- Every name present after one insertion step was already present or comes
from the processed entry. -/
theorem insertLocation_mem {acc : List String} {e : EncounterEntry} {x : String}
    (h : x ∈ insertLocation acc e) :
    x ∈ acc ∨ ∃ la, e.location_area = some la ∧ la.name ≠ ""
      ∧ x = formatName la.name := by
  cases hl : e.location_area with
  | none =>
    simp only [insertLocation, hl] at h
    exact Or.inl h
  | some la =>
    simp only [insertLocation, hl] at h
    by_cases h₁ : la.name = ""
    · rw [if_pos h₁] at h
      exact Or.inl h
    · rw [if_neg h₁] at h
      by_cases h₂ : formatName la.name ∈ acc
      · rw [if_pos h₂] at h
        exact Or.inl h
      · rw [if_neg h₂] at h
        rcases List.mem_append.mp h with h₃ | h₃
        · exact Or.inl h₃
        · exact Or.inr ⟨la, rfl, h₁, by simpa using h₃⟩

/-- The location loop never exceeds 12 collected names. -/
theorem fetchLocationsLoop_length_le : ∀ (entries : List EncounterEntry)
    (acc : List String), acc.length ≤ 11 → (fetchLocationsLoop entries acc).length ≤ 12
  | [], acc, h => by
    simp only [fetchLocationsLoop]
    omega
  | e :: rest, acc, h => by
    have hstep := insertLocation_length_le acc e
    simp only [fetchLocationsLoop]
    split
    · omega
    · rename_i hlt
      exact fetchLocationsLoop_length_le rest (insertLocation acc e) (by omega)

/-- The location loop preserves distinctness. -/
theorem fetchLocationsLoop_nodup : ∀ (entries : List EncounterEntry)
    (acc : List String), acc.Nodup → (fetchLocationsLoop entries acc).Nodup
  | [], _, h => h
  | e :: rest, acc, h => by
    simp only [fetchLocationsLoop]
    split
    · exact insertLocation_nodup e h
    · exact fetchLocationsLoop_nodup rest _ (insertLocation_nodup e h)

/-- Every collected name originates from the accumulator or from some
processed entry with a non-empty area name. -/
theorem fetchLocationsLoop_mem : ∀ (entries : List EncounterEntry)
    (acc : List String) (x : String), x ∈ fetchLocationsLoop entries acc →
    x ∈ acc ∨ ∃ e ∈ entries, ∃ la, e.location_area = some la ∧ la.name ≠ ""
      ∧ x = formatName la.name
  | [], _, _, h => Or.inl h
  | e :: rest, acc, x, h => by
    simp only [fetchLocationsLoop] at h
    split at h
    · rcases insertLocation_mem h with h₁ | ⟨la, h₂, h₃, h₄⟩
      · exact Or.inl h₁
      · exact Or.inr ⟨e, List.mem_cons_self e rest, la, h₂, h₃, h₄⟩
    · rcases fetchLocationsLoop_mem rest _ x h with h₁ | ⟨e₃, he₃, la, h₂, h₃, h₄⟩
      · rcases insertLocation_mem h₁ with h₅ | ⟨la, h₂, h₃, h₄⟩
        · exact Or.inl h₅
        · exact Or.inr ⟨e, List.mem_cons_self e rest, la, h₂, h₃, h₄⟩
      · exact Or.inr ⟨e₃, List.mem_cons_of_mem e he₃, la, h₂, h₃, h₄⟩

/-- Once the loop has collected 12 names, later entries are never examined. -/
theorem fetchLocationsLoop_early_exit : ∀ (entries extra : List EncounterEntry)
    (acc : List String), acc.length ≤ 11 →
    (fetchLocationsLoop entries acc).length = 12 →
    fetchLocationsLoop (entries ++ extra) acc = fetchLocationsLoop entries acc
  | [], extra, acc, hle, hlen => by
    simp only [fetchLocationsLoop] at hlen
    exact absurd hlen (by omega)
  | e :: rest, extra, acc, hle, hlen => by
    simp only [List.cons_append, fetchLocationsLoop] at hlen ⊢
    split at hlen
    · rename_i hge
      simp only [if_pos hge]
    · rename_i hge
      have hstep := insertLocation_length_le acc e
      simp only [if_neg hge]
      exact fetchLocationsLoop_early_exit rest extra (insertLocation acc e) (by omega) hlen

/-- The location loop computes the insertion-ordered deduplication of the
humanized names relative to the accumulator, truncated at 12. -/
theorem fetchLocationsLoop_eq_dedup : ∀ (entries : List EncounterEntry)
    (acc : List String), acc.length ≤ 11 →
    fetchLocationsLoop entries acc
      = (acc ++ dedupNew acc (humanizedAreaNames entries)).take 12
  | [], acc, h => by
    simp only [fetchLocationsLoop, humanizedAreaNames, List.filterMap_nil, dedupNew,
      List.append_nil]
    exact (List.take_of_length_le (by omega)).symm
  | e :: rest, acc, h => by
    cases hl : e.location_area with
    | none =>
      have hnames : humanizedAreaNames (e :: rest) = humanizedAreaNames rest := by
        simp [humanizedAreaNames, List.filterMap_cons, hl]
      have hstep : insertLocation acc e = acc := by
        simp [insertLocation, hl]
      rw [hnames]
      simp only [fetchLocationsLoop, hstep, if_neg (by omega : ¬ 12 ≤ acc.length)]
      exact fetchLocationsLoop_eq_dedup rest acc h
    | some la =>
      by_cases hname : la.name = ""
      · have hnames : humanizedAreaNames (e :: rest) = humanizedAreaNames rest := by
          simp [humanizedAreaNames, List.filterMap_cons, hl, hname]
        have hstep : insertLocation acc e = acc := by
          simp [insertLocation, hl, hname]
        rw [hnames]
        simp only [fetchLocationsLoop, hstep, if_neg (by omega : ¬ 12 ≤ acc.length)]
        exact fetchLocationsLoop_eq_dedup rest acc h
      · have hnames : humanizedAreaNames (e :: rest)
            = formatName la.name :: humanizedAreaNames rest := by
          simp [humanizedAreaNames, List.filterMap_cons, hl, hname]
        rw [hnames]
        by_cases hmem : formatName la.name ∈ acc
        · have hstep : insertLocation acc e = acc := by
            simp [insertLocation, hl, hname, hmem]
          have hdedup : dedupNew acc (formatName la.name :: humanizedAreaNames rest)
              = dedupNew acc (humanizedAreaNames rest) := by
            simp [dedupNew, hmem]
          rw [hdedup]
          simp only [fetchLocationsLoop, hstep, if_neg (by omega : ¬ 12 ≤ acc.length)]
          exact fetchLocationsLoop_eq_dedup rest acc h
        · have hstep : insertLocation acc e = acc ++ [formatName la.name] := by
            simp [insertLocation, hl, hname, hmem]
          have hdedup : dedupNew acc (formatName la.name :: humanizedAreaNames rest)
              = formatName la.name
                :: dedupNew (acc ++ [formatName la.name]) (humanizedAreaNames rest) := by
            simp [dedupNew, hmem]
          rw [hdedup]
          by_cases hfull : 12 ≤ (acc ++ [formatName la.name]).length
          · simp only [fetchLocationsLoop, hstep, if_pos hfull]
            have hassoc : acc ++ formatName la.name
                  :: dedupNew (acc ++ [formatName la.name]) (humanizedAreaNames rest)
                = (acc ++ [formatName la.name])
                  ++ dedupNew (acc ++ [formatName la.name]) (humanizedAreaNames rest) := by
              simp
            have hle12 : (acc ++ [formatName la.name]).length ≤ 12 := by
              simp only [List.length_append, List.length_singleton]
              omega
            have hsub0 : 12 - (acc ++ [formatName la.name]).length = 0 := by
              simp only [List.length_append, List.length_singleton] at hfull ⊢
              omega
            rw [hassoc, List.take_append_eq_append_take,
              List.take_of_length_le hle12, hsub0]
            simp
          · simp only [fetchLocationsLoop, hstep, if_neg hfull]
            have hlen₂ : (acc ++ [formatName la.name]).length ≤ 11 := by
              simp only [List.length_append, List.length_singleton] at hfull ⊢
              omega
            rw [fetchLocationsLoop_eq_dedup rest (acc ++ [formatName la.name]) hlen₂]
            simp

/-- Claim C6: `fetchLocations` collects at most 12 pairwise-distinct humanized
area names in first-insertion order — the result is exactly the
first-occurrence deduplication of the humanized non-empty area names,
truncated at 12 — and stops iterating as soon as 12 unique names are
collected, so entries past that point never affect the result. -/
theorem fetchLocations_spec (entries : List EncounterEntry) :
    (collectLocations entries).length ≤ 12
    ∧ (collectLocations entries).Nodup
    ∧ (∀ x ∈ collectLocations entries, ∃ e ∈ entries, ∃ la,
        e.location_area = some la ∧ la.name ≠ "" ∧ x = formatName la.name)
    ∧ collectLocations entries = (dedupNew [] (humanizedAreaNames entries)).take 12
    ∧ (∀ extra, (collectLocations entries).length = 12 →
        collectLocations (entries ++ extra) = collectLocations entries) := by
  refine ⟨fetchLocationsLoop_length_le entries [] (by simp),
    fetchLocationsLoop_nodup entries [] List.nodup_nil, ?_, ?_, ?_⟩
  · intro x hx
    rcases fetchLocationsLoop_mem entries [] x hx with h | h
    · exact absurd h (List.not_mem_nil x)
    · exact h
  · simpa using fetchLocationsLoop_eq_dedup entries [] (by simp)
  · intro extra hlen
    exact fetchLocationsLoop_early_exit entries extra [] (by simp) hlen

/-- Witness for `fetchLocations_spec`: on a fixture that fills the set to 12,
appending a further entry leaves the result unchanged. -/
theorem fetchLocations_spec_witness :
    collectLocations (locFixture ++ [locEntry "extra"]) = collectLocations locFixture :=
  (fetchLocations_spec locFixture).2.2.2.2 [locEntry "extra"] (by decide)

/-- Claim C1: with a non-empty type selection, every record returned by
`filterAndSortPokemon` contains all of the selected types — the type filter is
conjunctive. -/
theorem filterAndSortPokemon_conjunctive (pokemon : List PokemonEntry)
    (filters : FilterState) (hne : filters.selectedTypes ≠ []) :
    ∀ p ∈ filterAndSortPokemon pokemon filters,
      ∀ ty ∈ filters.selectedTypes, ty ∈ p.types := by
  intro p hp ty hty
  rw [filterAndSortPokemon, List.mem_insertionSort] at hp
  have hpred := List.of_mem_filter hp
  simp only [Bool.and_eq_true] at hpred
  have h₁ : matchesTypes filters.selectedTypes p = true := hpred.1.1.2
  rw [matchesTypes, List.all_eq_true] at h₁
  simpa using h₁ ty hty

/-- Witness for `filterAndSortPokemon_conjunctive` at a singleton collection
and a one-type selection. -/
theorem filterAndSortPokemon_conjunctive_witness :
    "grass" ∈ samplePokemon.types :=
  filterAndSortPokemon_conjunctive [samplePokemon] sampleFilters (by decide)
    samplePokemon (by decide) "grass" (by decide)

/-- Claim C5: `getAutocompleteSuggestions` returns nothing for an empty or
whitespace-only query, otherwise at most `n` records whose display name
contains the normalised query, as an order-preserving selection from the
collection (hence in identifier-ascending order whenever the collection is). -/
theorem getAutocompleteSuggestions_spec (pokemon : List PokemonEntry)
    (query : String) (n : Nat) :
    (trimStr query = "" → getAutocompleteSuggestions pokemon query n = [])
    ∧ (getAutocompleteSuggestions pokemon query n).length ≤ n
    ∧ (∀ p ∈ getAutocompleteSuggestions pokemon query n,
        containsIgnoreCase p.name (toLowerStr (trimStr query)) = true)
    ∧ List.Sublist (getAutocompleteSuggestions pokemon query n) pokemon
    ∧ (List.Pairwise (fun a b : PokemonEntry => a.id < b.id) pokemon →
        List.Pairwise (fun a b : PokemonEntry => a.id < b.id)
          (getAutocompleteSuggestions pokemon query n)) := by
  have hsub : List.Sublist (getAutocompleteSuggestions pokemon query n) pokemon := by
    rw [getAutocompleteSuggestions]
    split
    · exact List.nil_sublist pokemon
    · exact (List.take_sublist _ _).trans (List.filter_sublist pokemon)
  refine ⟨?_, ?_, ?_, hsub, fun hp => List.Pairwise.sublist hsub hp⟩
  · intro h
    rw [getAutocompleteSuggestions, if_pos (by rw [h]; rfl)]
  · rw [getAutocompleteSuggestions]
    split
    · simp
    · exact List.length_take_le n _
  · intro p hp
    rw [getAutocompleteSuggestions] at hp
    split at hp
    · exact absurd hp (List.not_mem_nil p)
    · exact (List.mem_filter.mp (List.mem_of_mem_take hp)).2

/-- Witness for `getAutocompleteSuggestions_spec`: a whitespace-only query
yields nothing, and a truncated query result keeps ascending identifiers. -/
theorem getAutocompleteSuggestions_spec_witness :
    getAutocompleteSuggestions acFixture "   " 8 = []
    ∧ List.Pairwise (fun a b : PokemonEntry => a.id < b.id)
        (getAutocompleteSuggestions acFixture "pi" 2) :=
  ⟨(getAutocompleteSuggestions_spec acFixture "   " 8).1 (by decide),
   (getAutocompleteSuggestions_spec acFixture "pi" 2).2.2.2.2 (by decide)⟩

/-- Claim C9 (counterexample): the detail page does not derive its move list by
slicing alone — on a record whose ingested null-level moves are not in
alphabetical order, the displayed list is not a truncation of the ingested
ordering. -/
theorem combinedMoves_not_truncation :
    ¬ ∃ k, combinedMoves cexIngested = cexIngested.take k := by
  rintro ⟨k, hk⟩
  rcases k with _ | _ | k
  · exact absurd hk (by decide)
  · exact absurd hk (by decide)
  · have hlen : cexIngested.length ≤ k + 2 := by
      have h : cexIngested.length = 2 := by decide
      omega
    rw [List.take_of_length_le hlen] at hk
    exact absurd hk (by decide)

/-- Claim C9 (amended): the detail page derives the displayed moves by
re-sorting rather than pure slicing — the non-null-level moves keep their
ingested relative order (their re-sort by level is the identity on the
already-sorted ingested data), the null-level moves are re-sorted
alphabetically by name, and the concatenation is truncated to the 16-entry
display limit. -/
theorem combinedMoves_extractMoves (raw : Option (List ApiMove)) :
    combinedMoves (extractMoves raw)
      = ((extractMoves raw).filter (fun m => m.levelLearnedAt.isSome)
          ++ ((extractMoves raw).filter
              (fun m => m.levelLearnedAt.isNone)).insertionSort moveNameLe).take
        MOVES_DISPLAY_LIMIT := by
  cases raw with
  | none => rfl
  | some ms =>
    have hA : ∀ m ∈ (sortedLevelUp ms).take 30, m.levelLearnedAt.isSome = true := by
      intro m hm
      have hm₂ : m ∈ sortedLevelUp ms := List.mem_of_mem_take hm
      rw [sortedLevelUp, List.mem_insertionSort] at hm₂
      exact (List.mem_filter.mp hm₂).2
    have hB : ∀ m ∈ otherMoves ms, m.levelLearnedAt.isNone = true := by
      intro m hm
      rw [otherMoves] at hm
      exact (List.mem_filter.mp (List.mem_of_mem_take hm)).2
    have hfilterSome : (extractMoves (some ms)).filter (fun m => m.levelLearnedAt.isSome)
        = (sortedLevelUp ms).take 30 := by
      show ((sortedLevelUp ms).take 30 ++ otherMoves ms).filter _ = _
      rw [List.filter_append, List.filter_eq_self.mpr hA,
        List.filter_eq_nil_iff.mpr (fun m hm => by
          have h := hB m hm
          rw [Option.isNone_iff_eq_none] at h
          simp [h]), List.append_nil]
    have hfilterNone : (extractMoves (some ms)).filter (fun m => m.levelLearnedAt.isNone)
        = otherMoves ms := by
      show ((sortedLevelUp ms).take 30 ++ otherMoves ms).filter _ = _
      rw [List.filter_append, List.filter_eq_self.mpr hB,
        List.filter_eq_nil_iff.mpr (fun m hm => by
          have h := hA m hm
          rw [Option.isSome_iff_exists] at h
          rcases h with ⟨v, hv⟩
          simp [hv]), List.nil_append]
    have hsorted : List.Sorted moveLevelLe ((sortedLevelUp ms).take 30) :=
      List.Pairwise.sublist (List.take_sublist 30 _)
        (List.sorted_insertionSort moveLevelLe _)
    have heq := List.Sorted.insertionSort_eq hsorted
    simp only [combinedMoves, hfilterSome, hfilterNone, heq]

end Pokedex
